import Mathlib

/-!
Verification of the Shoppr request-orchestration and caching layer.

The definitions below are a shallow embedding of the server function
`src/supabase/functions/server/index.tsx` and of the client-side cache and
search-history logic in the main application component.  JavaScript numbers
that can be NaN are modelled by `JsNum` (`Option`-like, with an explicit
`nan` constructor); heterogeneous JSON values by `JsVal`; external calls
(fetch outcomes, JSON.parse) are modelled as explicit parameters so that
every control path of the source is a case of the Lean definition.
-/

/-- A JavaScript number: either a decimal value `mant / 10 ^ dec`
(every number the embedded code manipulates is a decimal) or NaN.
The code only ever compares prices against 0 and passes them through
unchanged, so an exact decimal representation is observationally
faithful; `JsNum.toRat` gives the denoted rational. -/
inductive JsNum where
  | val (mant : ℤ) (dec : ℕ)
  | nan
deriving DecidableEq

/-- The rational value denoted by a (non-NaN) `JsNum`. -/
def JsNum.toRat : JsNum → ℚ
  | .val m d => (m : ℚ) / 10 ^ d
  | .nan => 0

/-- Shorthand for a whole JS number. -/
def JsNum.int (n : ℤ) : JsNum := .val n 0

/-- A JavaScript/JSON value, as far as the embedded code inspects one:
`null`, `undefined`, booleans, numbers, strings and objects
(an object is a list of named fields). -/
inductive JsVal where
  | null
  | undefd
  | bool (b : Bool)
  | num (x : JsNum)
  | str (s : String)
  | obj (fields : List (String × JsVal))

/-- JavaScript truthiness: `null`, `undefined`, `false`, `0`, `NaN`
and the empty string are falsy; everything else is truthy. -/
def truthy : JsVal → Bool
  | .null => false
  | .undefd => false
  | .bool b => b
  | .num (.val m _) => decide (m ≠ 0)
  | .num .nan => false
  | .str s => decide (s ≠ "")
  | .obj _ => true

/-- First-match association-list lookup (the lookup discipline of a JS
object / `Map`, which holds at most one entry per key). -/
def lookupA {β : Type} : List (String × β) → String → Option β
  | [], _ => none
  | (k, v) :: rest, key => if k = key then some v else lookupA rest key

/-- Property access `v.name` (with optional chaining): `undefined` unless
`v` is an object that has the field. -/
def getFieldJs : JsVal → String → JsVal
  | .obj fields, name =>
      match lookupA fields name with
      | some v => v
      | none => .undefd
  | _, _ => .undefd

/-- JavaScript `a || b`. -/
def jsOr (a b : JsVal) : JsVal := if truthy a then a else b

/-- JavaScript `o || d` for a possibly-missing string (`undefined` and
`""` are falsy and select the default). -/
def jsStrOr (o : Option String) (d : String) : String :=
  match o with
  | none => d
  | some s => if s = "" then d else s

def isDigitCh (c : Char) : Bool := decide ('0' ≤ c) && decide (c ≤ '9')

def isDigitComma (c : Char) : Bool := isDigitCh c || decide (c = ',')

/-- The greedy match of the regex `[\d,]+\.?\d*` at the start of `s`
(whose head is assumed to be a digit or comma): a maximal run of digits
and commas, an optional dot, then a maximal run of digits. -/
def takeNumMatch (s : List Char) : List Char :=
  let run1 := s.takeWhile isDigitComma
  let rest1 := s.dropWhile isDigitComma
  match rest1 with
  | '.' :: r2 => run1 ++ '.' :: r2.takeWhile isDigitCh
  | _ => run1

/-- `s.match(/[\d,]+\.?\d*/)`: the leftmost match, i.e. the greedy match
starting at the first digit-or-comma character, if any. -/
def firstNumMatch : List Char → Option (List Char)
  | [] => none
  | c :: rest =>
      if isDigitComma c then some (takeNumMatch (c :: rest))
      else firstNumMatch rest

/-- `.replace(/,/g, '')`. -/
def stripCommas (l : List Char) : List Char := l.filter (fun c => c ≠ ',')

def digitsToNat (l : List Char) : ℕ :=
  l.foldl (fun acc c => acc * 10 + (c.toNat - '0'.toNat)) 0

/-- `parseFloat` on the comma-stripped match (a string made of digits and
at most one dot): its numeric value, or NaN when it contains no digit at
all (e.g. `parseFloat("")`, which arises from a match of bare commas). -/
def parseFloatChars (l : List Char) : JsNum :=
  let intPart := l.takeWhile isDigitCh
  let rest := l.dropWhile isDigitCh
  match rest with
  | '.' :: fr =>
      let fracPart := fr.takeWhile isDigitCh
      if intPart.isEmpty && fracPart.isEmpty then .nan
      else .val (digitsToNat intPart * 10 ^ fracPart.length + digitsToNat fracPart : ℕ) fracPart.length
  | _ => if intPart.isEmpty then .nan else .val (digitsToNat intPart : ℕ) 0

/-- The string branch of `extractPrice`:
`match ? parseFloat(match[0].replace(/,/g, '')) : 0`. -/
def parsePriceString (s : String) : JsNum :=
  match firstNumMatch s.data with
  | none => .int 0
  | some m => parseFloatChars (stripCommas m)

/-- `extractPrice` from the server (price normalization): a falsy input
gives 0; a number is returned as is; a string is matched against
`[\d,]+\.?\d*`, commas stripped and parsed; an object is probed for
`raw`/`value`/`amount`/`price` with `||`, and the first truthy field is
handled as a string or a number (anything else gives 0). -/
def extractPrice (priceData : JsVal) : JsNum :=
  if !truthy priceData then .int 0
  else
    match priceData with
    | .num x => x
    | .str s => parsePriceString s
    | .obj fields =>
        let price := jsOr (getFieldJs (.obj fields) "raw")
          (jsOr (getFieldJs (.obj fields) "value")
            (jsOr (getFieldJs (.obj fields) "amount")
              (jsOr (getFieldJs (.obj fields) "price") (.num (.int 0)))))
        match price with
        | .str s => parsePriceString s
        | .num x => x
        | _ => .int 0
    | _ => .int 0

/-- `(price : JsNum) > 0` in JavaScript: false for NaN. -/
def jsGtZero : JsNum → Bool
  | .val m _ => decide (0 < m)
  | .nan => false

/-- A normalized product, as assembled by the `/search` handler
(`currency` is kept as a raw JS value: the source copies
`product.price?.currency || 'GBP'` without checking it is a string). -/
structure Product where
  id : String
  title : String
  price : JsNum
  currency : JsVal
  image : String
  url : String

/-- A raw catalog listing as the `/search` handler reads it: the fields
it accesses, with `none` for an absent (`undefined`) field. -/
structure RawListing where
  asin : Option String
  title : Option String
  price : JsVal
  image : Option String
  link : Option String

/-- One step of the `/search` handler's `.map((product, index) => ...)`:
normalize a raw listing at 0-based index `i`. -/
def normalizeListing (i : ℕ) (r : RawListing) : Product :=
  { id := jsStrOr r.asin ("product-" ++ toString i)
    title := jsStrOr r.title "Untitled Product"
    price := extractPrice r.price
    currency := jsOr (getFieldJs r.price "currency") (.str "GBP")
    image := jsStrOr r.image ""
    url := jsStrOr r.link "#" }

/-- Pair each element with its 0-based index starting at `k`
(the `(x, index)` argument pair of a JS `.map`). -/
def withIdx {α : Type} : ℕ → List α → List (ℕ × α)
  | _, [] => []
  | k, a :: as => (k, a) :: withIdx (k + 1) as

/-- The `/search` handler's candidate processing, exactly as written:
`search_results.slice(0, 25).map(normalize).filter(p => p.price > 0)` —
note the cap to 25 is applied BEFORE the price filter. -/
def processCandidates (rs : List RawListing) : List Product :=
  ((withIdx 0 (rs.take 25)).map (fun ip => normalizeListing ip.1 ip.2)).filter
    (fun p => jsGtZero p.price)

/-- Modelled from the spec sentence "Normalize and filter candidates
(drop price ≤ 0), cap to first 25": filter first, THEN take the first 25
survivors.  Stated only to be compared with `processCandidates`. -/
def specProcessCandidates (rs : List RawListing) : List Product :=
  (((withIdx 0 rs).map (fun ip => normalizeListing ip.1 ip.2)).filter
    (fun p => jsGtZero p.price)).take 25

/-- The two-field result of query optimization. -/
structure OptResult where
  optimized_search : String
  reasoning : String
deriving DecidableEq

/-- `createFallbackOptimization` from the server. -/
def createFallbackOptimization (query : String) : OptResult :=
  { optimized_search := query
    reasoning := "Direct search (AI optimization unavailable)" }

/-- Outcome of one `fetch` of the generative-language API, as far as the
code inspects it: the promise rejected (network error / abort timeout),
or a response with its `ok` flag and, when `response.json()` succeeds,
the optional generated text `data.candidates?.[0]?.content?.parts?.[0]?.text`
(`body = none` models a body that is not parseable JSON). -/
inductive FetchResult where
  | netError
  | response (ok : Bool) (body : Option (Option String))

def braceOpen : Char := Char.ofNat 123

def braceClose : Char := Char.ofNat 125

/-- `generatedText.match(/\{[\s\S]*\}/)`: the span from the first opening
brace through the last closing brace, when both exist in that order. -/
def extractJsonSpan (s : List Char) : Option (List Char) :=
  let rest := s.dropWhile (fun c => c ≠ braceOpen)
  match rest with
  | [] => none
  | _ :: _ =>
      let rev2 := rest.reverse.dropWhile (fun c => c ≠ braceClose)
      match rev2 with
      | [] => none
      | _ :: _ => some rev2.reverse

/-- `optimizeSearchWithGemini`, with the environment made explicit:
`cached` is the (TTL-checked) Gemini-cache lookup result, `hasKey`
whether `GEMINI_API_KEY` is set, `f` the fetch outcome and `parseJson`
the behaviour of `JSON.parse` on the extracted span (`none` = throws).
Every `throw` of the source lands in the `catch` that returns
`createFallbackOptimization(query)`. -/
def optimizeSearchWithGemini (query : String) (_categoryName : String)
    (cached : Option OptResult) (hasKey : Bool) (f : FetchResult)
    (parseJson : String → Option OptResult) : OptResult :=
  match cached with
  | some r => r
  | none =>
      if !hasKey then createFallbackOptimization query
      else
        match f with
        | .netError => createFallbackOptimization query
        | .response ok body =>
            if !ok then createFallbackOptimization query
            else
              match body with
              | none => createFallbackOptimization query
              | some none => createFallbackOptimization query
              | some (some generatedText) =>
                  match extractJsonSpan generatedText.data with
                  | none => createFallbackOptimization query
                  | some jsonChars =>
                      match parseJson (String.mk jsonChars) with
                      | none => createFallbackOptimization query
                      | some result => result

/-- The successful path of the optimizer's external call: `some result`
when the key is present, the fetch returns `ok`, the body parses, text is
present, a JSON span is found and `JSON.parse` succeeds. -/
def optimizeCallSucceeds (hasKey : Bool) (f : FetchResult)
    (parseJson : String → Option OptResult) : Option OptResult :=
  if !hasKey then none
  else
    match f with
    | .netError => none
    | .response ok body =>
        if !ok then none
        else
          match body with
          | some (some generatedText) =>
              match extractJsonSpan generatedText.data with
              | none => none
              | some jsonChars => parseJson (String.mk jsonChars)
          | _ => none

/-- The survey record (personalization profile) stored per user. -/
structure SurveyData where
  name : String
  username : String
  gender : String
  categories : List String
  budget : String
  motivations : List String
  brandPreference : String
  shoppingPattern : String
  stylePreferences : List String
  dealSensitivity : String
  otherCategory : String

/-- Does `pat` occur at the start of `s`? -/
def startsWithChars : List Char → List Char → Bool
  | [], _ => true
  | _ :: _, [] => false
  | a :: as, b :: bs => decide (a = b) && startsWithChars as bs

/-- JavaScript `s.includes(pat)`: does `pat` occur contiguously in `s`? -/
def containsChars (pat : List Char) : List Char → Bool
  | [] => startsWithChars pat []
  | c :: rest => startsWithChars pat (c :: rest) || containsChars pat rest

/-- `optimization.reasoning.includes('unavailable')`. -/
def includesUnavailable (s : String) : Bool :=
  containsChars "unavailable".data s.data

/-- The `/search` handler's re-optimization decision (its step 3):
`surveyData && surveyData.gender && surveyData.budget` must all be
truthy AND the speculative optimization's reasoning must contain the
word `unavailable`. -/
def shouldReoptimize (surveyData : Option SurveyData) (optimization : OptResult) : Bool :=
  match surveyData with
  | none => false
  | some s =>
      decide (s.gender ≠ "") && decide (s.budget ≠ "") &&
        includesUnavailable optimization.reasoning

/-- The optimization actually used for the catalog search:
the personalized re-run when `shouldReoptimize`, otherwise the
speculative (profile-free) result unchanged. -/
def finalOptimization (surveyData : Option SurveyData)
    (optimization personalized : OptResult) : OptResult :=
  if shouldReoptimize surveyData optimization then personalized else optimization

/-- One entry of the JSON ranking array `{position, rank, reasoning}`
returned by the ranking call; `none` marks an absent field.  Positions
and ranks are modelled as integers (the code only matches positions with
`===` and compares ranks). -/
structure RankingEntry where
  position : ℤ
  rank : Option ℤ
  reasoning : Option String
deriving DecidableEq

/-- A product enriched with `rank` and `reasoning`
(`{...product, rank, reasoning}`). -/
structure RankedProduct where
  product : Product
  rank : ℤ
  reasoning : String

/-- JavaScript `o || d` for an optional number (`undefined` and `0` are
falsy and select the default). -/
def jsIntOr (o : Option ℤ) (d : ℤ) : ℤ :=
  match o with
  | none => d
  | some k => if k = 0 then d else k

/-- `rankings.find(r => r.position === index + 1)` followed by
`{...product, rank: ranking?.rank || index + 1,
reasoning: ranking?.reasoning || default}`. -/
def applyEntry (rankings : List RankingEntry) (defaultReason : String)
    (i : ℕ) (p : Product) : RankedProduct :=
  match rankings.find? (fun r => r.position == (i : ℤ) + 1) with
  | none => ⟨p, (i : ℤ) + 1, defaultReason⟩
  | some r => ⟨p, jsIntOr r.rank ((i : ℤ) + 1), jsStrOr r.reasoning defaultReason⟩

/-- Comparison used by `rankedProducts.sort((a, b) => a.rank - b.rank)`. -/
def rankLE (a b : RankedProduct) : Prop := a.rank ≤ b.rank

instance : DecidableRel rankLE := fun a b => Int.decLe a.rank b.rank

instance : IsTotal RankedProduct rankLE := ⟨fun a b => Int.le_total a.rank b.rank⟩

instance : IsTrans RankedProduct rankLE := ⟨fun _ _ _ => Int.le_trans⟩

def bracketOpen : Char := '['

def bracketClose : Char := ']'

/-- `generatedText.match(/\[[\s\S]*\]/)`: the span from the first opening
bracket through the last closing bracket, when both exist in that order. -/
def extractArraySpan (s : List Char) : Option (List Char) :=
  let rest := s.dropWhile (fun c => c ≠ bracketOpen)
  match rest with
  | [] => none
  | _ :: _ =>
      let rev2 := rest.reverse.dropWhile (fun c => c ≠ bracketClose)
      match rev2 with
      | [] => none
      | _ :: _ => some rev2.reverse

/-- The ranking call's attempt to obtain a rankings array (the body of
the inner `try` of `rankProductsWithGemini`): `none` means some step
threw and control reaches the `catch` that builds the error fallback. -/
def rankAttempt (f : FetchResult)
    (parseArr : String → Option (List RankingEntry)) : Option (List RankingEntry) :=
  match f with
  | .netError => none
  | .response ok body =>
      if !ok then none
      else
        match body with
        | some (some generatedText) =>
            match extractArraySpan generatedText.data with
            | none => none
            | some arrChars => parseArr (String.mk arrChars)
        | _ => none

/-- `rankProductsWithGemini`, environment made explicit (`cached` is the
TTL-checked rank-cache lookup result).  Cache hit: replay cached entries
onto the current products positionally, NO sort.  Missing key: identity
ranking `Default ranking (AI unavailable)`.  Successful call: apply the
returned entries positionally (defaults `rank = index + 1`,
`reasoning = 'AI ranked'`) and stable-sort ascending by rank.  Any
failure: identity ranking `Default ranking (error)`. -/
def rankProductsWithGemini (products : List Product)
    (cached : Option (List RankingEntry)) (hasKey : Bool) (f : FetchResult)
    (parseArr : String → Option (List RankingEntry)) : List RankedProduct :=
  match cached with
  | some cachedRankings =>
      (withIdx 0 products).map (fun ip => applyEntry cachedRankings "Cached ranking" ip.1 ip.2)
  | none =>
      if !hasKey then
        (withIdx 0 products).map
          (fun ip => ⟨ip.2, (ip.1 : ℤ) + 1, "Default ranking (AI unavailable)"⟩)
      else
        match rankAttempt f parseArr with
        | some rankings =>
            List.insertionSort rankLE
              ((withIdx 0 products).map (fun ip => applyEntry rankings "AI ranked" ip.1 ip.2))
        | none =>
            (withIdx 0 products).map
              (fun ip => ⟨ip.2, (ip.1 : ℤ) + 1, "Default ranking (error)"⟩)

/-- A cache slot `{ value, timestamp }`. -/
structure CacheEntry (α : Type) where
  value : α
  timestamp : ℤ
deriving DecidableEq

/-- Remove every binding of `key` (JS `Map.delete`; a map holds at most
one, an association list built with `setKey` likewise). -/
def eraseKey {β : Type} : List (String × β) → String → List (String × β)
  | [], _ => []
  | e :: rest, key => if e.1 = key then eraseKey rest key else e :: eraseKey rest key

/-- JS `Map.set`: bind `key`, replacing any previous binding. -/
def setKey {β : Type} (m : List (String × β)) (key : String) (v : β) : List (String × β) :=
  (key, v) :: eraseKey m key

/-- Client search cache lifetime: 5 minutes in ms. -/
def clientCacheDuration : ℤ := 5 * 60 * 1000

/-- Server Gemini cache lifetime: 10 minutes in ms. -/
def serverCacheDuration : ℤ := 10 * 60 * 1000

/-- `SearchCache.getCacheKey`. -/
def searchCacheKey (query categoryId : String) (userId : Option String) : String :=
  query.toLower.trim ++ "-" ++ categoryId ++ "-" ++ (userId.getD "anonymous")

/-- `SearchCache.get` (client): a miss on an absent key; on a present key
older than the lifetime, delete the entry and miss; otherwise hit.
Returns the result together with the cache after the call. -/
def searchCacheGet {α : Type} (cache : List (String × CacheEntry α)) (now : ℤ)
    (key : String) : Option α × List (String × CacheEntry α) :=
  match lookupA cache key with
  | none => (none, cache)
  | some e =>
      if now - e.timestamp > clientCacheDuration then (none, eraseKey cache key)
      else (some e.value, cache)

/-- `SearchCache.cleanup` (client, run after every `set`). -/
def searchCacheCleanup {α : Type} (cache : List (String × CacheEntry α)) (now : ℤ) :
    List (String × CacheEntry α) :=
  cache.filter (fun e => !decide (now - e.2.timestamp > clientCacheDuration))

/-- `SearchCache.set` (client): store, then clean up expired entries. -/
def searchCacheSet {α : Type} (cache : List (String × CacheEntry α)) (now : ℤ)
    (key : String) (v : α) : List (String × CacheEntry α) :=
  searchCacheCleanup (setKey cache key ⟨v, now⟩) now

/-- The Gemini-cache lookup performed inline by both server AI helpers:
`cached && Date.now() - cached.timestamp < CACHE_DURATION`.  It never
mutates the cache — an expired entry merely fails the freshness test and
stays stored (only the periodic sweep removes it). -/
def geminiCacheGet {α : Type} (cache : List (String × CacheEntry α)) (now : ℤ)
    (key : String) : Option α × List (String × CacheEntry α) :=
  match lookupA cache key with
  | none => (none, cache)
  | some e =>
      if now - e.timestamp < serverCacheDuration then (some e.value, cache)
      else (none, cache)

/-- The server's periodic sweep (`setInterval` body): delete every entry
strictly older than the cache duration. -/
def geminiCacheSweep {α : Type} (cache : List (String × CacheEntry α)) (now : ℤ) :
    List (String × CacheEntry α) :=
  cache.filter (fun e => !decide (now - e.2.timestamp > serverCacheDuration))

/-- A stored user profile. -/
structure UserProfile where
  id : String
  name : String
  username : String
  created_at : String
deriving DecidableEq

/-- The key-value store as the user endpoints see it: the `user:{id}`
records and the `username:{lowercased}` reverse index. -/
structure Store where
  users : List (String × UserProfile)
  usernames : List (String × String)
deriving DecidableEq

def isJsSpace (c : Char) : Bool :=
  decide (c = ' ') || decide (c = '\t') || decide (c = '\n') || decide (c = '\r')

/-- JavaScript `String.prototype.trim` (over the whitespace the
repository's inputs can contain). -/
def trimStr (s : String) : String :=
  String.mk (((s.data.dropWhile isJsSpace).reverse.dropWhile isJsSpace).reverse)

/-- `username.toLowerCase().trim()` as the handlers compute it (the
source lowercases then trims; both orders agree). -/
def cleanOf (username : String) : String :=
  trimStr (String.mk (username.data.map Char.toLower))

/-- Response of the `PUT /users/:userId` handler. -/
inductive PutResponse where
  | badRequest
  | notFound
  | conflict
  | ok (user : UserProfile)
deriving DecidableEq

/-- The `PUT /users/:userId` handler: validate, load the user, and when
the cleaned username differs from the stored one, reject with 409 if the
reverse index already binds it, else move the index binding; finally
store the updated profile. -/
def putUser (st : Store) (userId name username : String) : PutResponse × Store :=
  if trimStr name = "" ∨ trimStr username = "" then (.badRequest, st)
  else
    let cleanUsername := cleanOf username
    let cleanName := trimStr name
    match lookupA st.users userId with
    | none => (.notFound, st)
    | some currentUser =>
        if cleanUsername ≠ currentUser.username then
          match lookupA st.usernames cleanUsername with
          | some _ => (.conflict, st)
          | none =>
              let usernames' := setKey (eraseKey st.usernames currentUser.username) cleanUsername userId
              let updatedUser : UserProfile :=
                { currentUser with name := cleanName, username := cleanUsername }
              (.ok updatedUser, ⟨setKey st.users userId updatedUser, usernames'⟩)
        else
          let updatedUser : UserProfile :=
            { currentUser with name := cleanName, username := cleanUsername }
          (.ok updatedUser, ⟨setKey st.users userId updatedUser, st.usernames⟩)

/-- Reverse-index coherence: every binding `username ↦ id` of the index
points to an existing user whose stored username is that key.  This holds
for every store reachable through the user endpoints. -/
def WFStore (st : Store) : Prop :=
  ∀ k uid, lookupA st.usernames k = some uid →
    ∃ u, lookupA st.users uid = some u ∧ u.username = k

/-- One completed search: `[query, ...history.filter(q => q !== query)].slice(0, 6)`. -/
def addToHistory (hist : List String) (q : String) : List String :=
  (q :: hist.filter (fun x => x ≠ q)).take 6

/-- Keep the first occurrence of every string, in order. -/
def dedupKeepFirst : List String → List String
  | [] => []
  | q :: qs => q :: (dedupKeepFirst qs).filter (fun x => x ≠ q)

/-! Concrete inputs used by witnesses and counterexamples. -/

def prodA : Product := ⟨"a1", "ta", .int 10, .str "GBP", "", "#"⟩

def prodB : Product := ⟨"b2", "tb", .int 20, .str "GBP", "", "#"⟩

/-- A cached rankings array that swaps the two positions. -/
def cexRankings : List RankingEntry := [⟨1, some 2, some "x"⟩, ⟨2, some 1, some "y"⟩]

def badListing : RawListing := ⟨some "bad0", some "broken", .num (.int 0), none, none⟩

def goodListing : RawListing := ⟨some "good", some "fine", .num (.int 1), none, none⟩

/-- 26 raw listings whose first candidate has price 0. -/
def c3input : List RawListing := badListing :: List.replicate 25 goodListing

def c5cache : List (String × CacheEntry String) := [("k", ⟨"v", 0⟩)]

/-- A profile with empty gender (the survey allows "prefer not to say" /
empty), non-empty budget. -/
def survey0 : SurveyData :=
  ⟨"Ann", "ann", "", ["Electronics"], "moderate", ["quality"], "brand", "research", [], "high", ""⟩

/-- A profile with non-empty gender and budget. -/
def survey1 : SurveyData :=
  ⟨"Bea", "bea", "female", ["Beauty"], "premium", ["style"], "brand", "impulse", ["modern"], "low", ""⟩

def store7 : Store :=
  ⟨[("u1", ⟨"u1", "Alice", "alice", "t0"⟩), ("u2", ⟨"u2", "Bob", "bob", "t1"⟩)],
   [("alice", "u1"), ("bob", "u2")]⟩

/-! Helper lemmas about the association-list store. -/

theorem lookupA_eraseKey_self {β : Type} (m : List (String × β)) (key : String) :
    lookupA (eraseKey m key) key = none := by
  induction m with
  | nil => rfl
  | cons e rest ih =>
      by_cases h : e.1 = key
      · simpa [eraseKey, h] using ih
      · simpa [eraseKey, lookupA, h] using ih

theorem lookupA_eraseKey_ne {β : Type} (m : List (String × β)) (key k : String)
    (h : k ≠ key) : lookupA (eraseKey m key) k = lookupA m k := by
  induction m with
  | nil => rfl
  | cons e rest ih =>
      by_cases he : e.1 = key
      · have hek : e.1 ≠ k := by rw [he]; exact fun hk => h hk.symm
        simp [eraseKey, lookupA, he, hek, h, Ne.symm h, ih]
      · by_cases hk : e.1 = k
        · simp [eraseKey, lookupA, he, hk, h]
        · simp [eraseKey, lookupA, he, hk, h, ih]

theorem lookupA_setKey_self {β : Type} (m : List (String × β)) (key : String) (v : β) :
    lookupA (setKey m key v) key = some v := by
  simp [setKey, lookupA]

theorem lookupA_setKey_ne {β : Type} (m : List (String × β)) (key k : String) (v : β)
    (h : k ≠ key) : lookupA (setKey m key v) k = lookupA m k := by
  have : key ≠ k := fun hk => h hk.symm
  simp [setKey, lookupA, this, lookupA_eraseKey_ne m key k h]

/-! Helper lemmas about `withIdx` and the ranker. -/

theorem withIdx_take {α : Type} :
    ∀ (l : List α) (n k : ℕ), withIdx k (l.take n) = (withIdx k l).take n := by
  intro l
  induction l with
  | nil => intro n k; simp [withIdx]
  | cons a as ih =>
      intro n k
      cases n with
      | zero => rfl
      | succ m => simp [withIdx, List.take_succ_cons, ih m (k + 1)]

theorem mem_withIdx {α : Type} :
    ∀ (l : List α) (k : ℕ) (x : ℕ × α), x ∈ withIdx k l → k ≤ x.1 ∧ x.1 < k + l.length := by
  intro l
  induction l with
  | nil => intro k x hx; simp [withIdx] at hx
  | cons a as ih =>
      intro k x hx
      simp only [withIdx, List.mem_cons] at hx
      rcases hx with rfl | hx
      · simp
      · have := ih (k + 1) x hx
        constructor
        · omega
        · simp only [List.length_cons]; omega

theorem withIdx_map_getElem {α β : Type} (f : ℕ × α → β) :
    ∀ (l : List α) (k i : ℕ), ((withIdx k l).map f)[i]? = (l[i]?).map (fun a => f (k + i, a)) := by
  intro l
  induction l with
  | nil => intro k i; simp [withIdx]
  | cons a as ih =>
      intro k i
      cases i with
      | zero => simp [withIdx]
      | succ j =>
          simp only [withIdx, List.map_cons, List.getElem?_cons_succ, ih (k + 1) j]
          cases as[j]? with
          | none => rfl
          | some b =>
              have harith : k + 1 + j = k + (j + 1) := by omega
              simp only [Option.map_some', harith]

theorem applyEntry_product (rankings : List RankingEntry) (d : String) (i : ℕ) (p : Product) :
    (applyEntry rankings d i p).product = p := by
  unfold applyEntry
  split <;> rfl

theorem mapProduct_withIdx (g : ℕ × Product → RankedProduct)
    (hg : ∀ ip, (g ip).product = ip.2) :
    ∀ (l : List Product) (k : ℕ), ((withIdx k l).map g).map (fun rp => rp.product) = l := by
  intro l
  induction l with
  | nil => intro k; rfl
  | cons a as ih => intro k; simp [withIdx, hg, ih]

/-- Definitional unfolding: the cache-hit path of the ranker. -/
theorem rankProducts_cacheHit (products : List Product) (cr : List RankingEntry)
    (hasKey : Bool) (f : FetchResult) (parseArr : String → Option (List RankingEntry)) :
    rankProductsWithGemini products (some cr) hasKey f parseArr =
      (withIdx 0 products).map (fun ip => applyEntry cr "Cached ranking" ip.1 ip.2) := rfl

/-- Definitional unfolding: the missing-credential path of the ranker. -/
theorem rankProducts_noKey (products : List Product) (f : FetchResult)
    (parseArr : String → Option (List RankingEntry)) :
    rankProductsWithGemini products none false f parseArr =
      (withIdx 0 products).map
        (fun ip => ⟨ip.2, (ip.1 : ℤ) + 1, "Default ranking (AI unavailable)"⟩) := rfl

/-- The successful-call path of the ranker. -/
theorem rankProducts_success (products : List Product) (f : FetchResult)
    (parseArr : String → Option (List RankingEntry)) (rankings : List RankingEntry)
    (h : rankAttempt f parseArr = some rankings) :
    rankProductsWithGemini products none true f parseArr =
      List.insertionSort rankLE
        ((withIdx 0 products).map (fun ip => applyEntry rankings "AI ranked" ip.1 ip.2)) := by
  show (match rankAttempt f parseArr with
    | some rankings =>
        List.insertionSort rankLE
          ((withIdx 0 products).map
            (fun ip : ℕ × Product => applyEntry rankings "AI ranked" ip.1 ip.2))
    | none =>
        (withIdx 0 products).map
          (fun ip : ℕ × Product => ⟨ip.2, (ip.1 : ℤ) + 1, "Default ranking (error)"⟩)) = _
  rw [h]

/-- The failed-call path of the ranker. -/
theorem rankProducts_error (products : List Product) (f : FetchResult)
    (parseArr : String → Option (List RankingEntry))
    (h : rankAttempt f parseArr = none) :
    rankProductsWithGemini products none true f parseArr =
      (withIdx 0 products).map
        (fun ip => ⟨ip.2, (ip.1 : ℤ) + 1, "Default ranking (error)"⟩) := by
  show (match rankAttempt f parseArr with
    | some rankings =>
        List.insertionSort rankLE
          ((withIdx 0 products).map
            (fun ip : ℕ × Product => applyEntry rankings "AI ranked" ip.1 ip.2))
    | none =>
        (withIdx 0 products).map
          (fun ip : ℕ × Product => ⟨ip.2, (ip.1 : ℤ) + 1, "Default ranking (error)"⟩)) = _
  rw [h]

/-- On every path, the ranker's output is a permutation of the input
products, each carried unchanged in the `product` field. -/
theorem rankProducts_map_product_perm (products : List Product)
    (cached : Option (List RankingEntry)) (hasKey : Bool) (f : FetchResult)
    (parseArr : String → Option (List RankingEntry)) :
    ((rankProductsWithGemini products cached hasKey f parseArr).map
      (fun rp => rp.product)).Perm products := by
  cases cached with
  | some cr =>
      rw [rankProducts_cacheHit,
        mapProduct_withIdx _ (fun ip => applyEntry_product cr "Cached ranking" ip.1 ip.2)]
  | none =>
      cases hasKey with
      | false =>
          rw [rankProducts_noKey, mapProduct_withIdx _ (fun _ => rfl)]
      | true =>
          cases hra : rankAttempt f parseArr with
          | some rankings =>
              rw [rankProducts_success products f parseArr rankings hra]
              have hperm := (List.perm_insertionSort rankLE
                ((withIdx 0 products).map
                  (fun ip => applyEntry rankings "AI ranked" ip.1 ip.2))).map
                  (fun rp => rp.product)
              rw [mapProduct_withIdx _
                (fun ip => applyEntry_product rankings "AI ranked" ip.1 ip.2)] at hperm
              exact hperm
          | none =>
              rw [rankProducts_error products f parseArr hra,
                mapProduct_withIdx _ (fun _ => rfl)]

theorem rankProducts_length (products : List Product)
    (cached : Option (List RankingEntry)) (hasKey : Bool) (f : FetchResult)
    (parseArr : String → Option (List RankingEntry)) :
    (rankProductsWithGemini products cached hasKey f parseArr).length = products.length := by
  have h := (rankProducts_map_product_perm products cached hasKey f parseArr).length_eq
  simpa using h

theorem firstNumMatch_nomatch :
    ∀ (l : List Char), (∀ c ∈ l, isDigitComma c = false) → firstNumMatch l = none := by
  intro l
  induction l with
  | nil => intro _; rfl
  | cons c rest ih =>
      intro h
      unfold firstNumMatch
      rw [h c (List.mem_cons_self c rest)]
      exact ih (fun d hd => h d (List.mem_cons_of_mem c hd))

/-- C2: whenever the query-optimization external call fails for any
reason (missing credential, network error/timeout, non-2xx, missing or
unparseable JSON body, missing generated text, no JSON span, JSON parse
failure), the optimizer returns exactly
`{ optimized_search = raw query, reasoning = "Direct search (AI optimization unavailable)" }`. -/
theorem optimizer_fallback_deterministic :
    ∀ (query categoryName : String) (hasKey : Bool) (f : FetchResult)
      (parseJson : String → Option OptResult),
      optimizeCallSucceeds hasKey f parseJson = none →
      optimizeSearchWithGemini query categoryName none hasKey f parseJson =
        { optimized_search := query
          reasoning := "Direct search (AI optimization unavailable)" } := by
  intro query categoryName hasKey f parseJson h
  cases hasKey with
  | false => rfl
  | true =>
      cases f with
      | netError => rfl
      | response ok body =>
          cases ok with
          | false => rfl
          | true =>
              cases body with
              | none => rfl
              | some t =>
                  cases t with
                  | none => rfl
                  | some generatedText =>
                      have h' : (match extractJsonSpan generatedText.data with
                        | none => none
                        | some jsonChars => parseJson (String.mk jsonChars)) =
                          (none : Option OptResult) := h
                      show (match extractJsonSpan generatedText.data with
                        | none => createFallbackOptimization query
                        | some jsonChars =>
                            match parseJson (String.mk jsonChars) with
                            | none => createFallbackOptimization query
                            | some result => result) = _
                      cases hspan : extractJsonSpan generatedText.data with
                      | none => rfl
                      | some jsonChars =>
                          rw [hspan] at h'
                          have h2 : parseJson (String.mk jsonChars) = none := h'
                          show (match parseJson (String.mk jsonChars) with
                            | none => createFallbackOptimization query
                            | some result => result) = _
                          rw [h2]
                          rfl

/-- C2 witness: a concrete failing call (no credential) falls back to the
raw query with the documented reasoning string. -/
theorem optimizer_fallback_deterministic_witness :
    optimizeSearchWithGemini "running shoes" "Electronics" none false .netError (fun _ => none) =
      { optimized_search := "running shoes"
        reasoning := "Direct search (AI optimization unavailable)" } :=
  optimizer_fallback_deterministic "running shoes" "Electronics" false .netError (fun _ => none) rfl

/-- C4 counterexample: on the input string `","` the price normalizer
returns NaN, not 0 — the regex `[\d,]+\.?\d*` matches the bare comma and
`parseFloat("")` is NaN.  This refutes "null or any unparseable value
yields exactly 0 (never an error, NaN, or other non-number)". -/
theorem extractPrice_nan_counterexample :
    extractPrice (.str ",") = .nan ∧ JsNum.nan ≠ JsNum.int 0 := by
  exact ⟨by decide, by decide⟩

/-- C4 (amended): the spec's price-normalization vectors hold —
`{raw: "£12.50"}` gives 12.50, `"$1,234.56"` gives 1234.56, `42` gives
42, `null` gives 0 — and any value whose text contains no digit or comma
gives 0; however, a string whose regex match contains no digit (a bare
comma run such as `","`) yields NaN rather than 0. -/
theorem extractPrice_contract :
    extractPrice (.obj [("raw", .str "£12.50")]) = .val 1250 2 ∧
    (JsNum.val 1250 2).toRat = 125 / 10 ∧
    extractPrice (.str "$1,234.56") = .val 123456 2 ∧
    (JsNum.val 123456 2).toRat = 123456 / 100 ∧
    extractPrice (.num (.int 42)) = .int 42 ∧
    extractPrice .null = .int 0 ∧
    extractPrice (.bool true) = .int 0 ∧
    (∀ s : String, (∀ c ∈ s.data, isDigitComma c = false) → extractPrice (.str s) = .int 0) ∧
    extractPrice (.str ",") = .nan := by
  refine ⟨by decide, by norm_num [JsNum.toRat], by decide, by norm_num [JsNum.toRat],
    by decide, by decide, by decide, ?_, by decide⟩
  intro s hs
  by_cases hs0 : s = ""
  · subst hs0; rfl
  · have ht : truthy (.str s) = true := by simp [truthy, hs0]
    unfold extractPrice
    rw [ht]
    show parsePriceString s = .int 0
    unfold parsePriceString
    rw [firstNumMatch_nomatch s.data hs]

/-- C4 witness: the universally quantified no-digit clause at `"abc"`. -/
theorem extractPrice_contract_witness : extractPrice (.str "abc") = .int 0 :=
  extractPrice_contract.2.2.2.2.2.2.2.1 "abc" (by decide)

/-- C5 counterexample: the server Gemini cache does NOT evict on an
expired lookup — one millisecond past the TTL the lookup misses but the
entry is still stored, refuting "returns a miss and evicts that entry"
for the server cache instance. -/
theorem geminiCache_no_evict_counterexample :
    (geminiCacheGet c5cache (serverCacheDuration + 1) "k").1 = none ∧
    (geminiCacheGet c5cache (serverCacheDuration + 1) "k").2 = c5cache ∧
    lookupA (geminiCacheGet c5cache (serverCacheDuration + 1) "k").2 "k" =
      some ⟨"v", 0⟩ := by
  refine ⟨by decide, by decide, by decide⟩

/-- C5 (amended): the client cache's `get` is a miss that evicts when the
entry is strictly older than 5 minutes and a hit otherwise; the server
cache's lookup is a hit only while strictly younger than 10 minutes and
otherwise a miss that leaves the entry in place (eviction is left to the
periodic sweep). -/
theorem cache_ttl_behavior :
    ∀ (α : Type) (cache : List (String × CacheEntry α)) (key : String)
      (e : CacheEntry α) (now : ℤ),
      lookupA cache key = some e →
      ((now - e.timestamp > clientCacheDuration →
          searchCacheGet cache now key = (none, eraseKey cache key) ∧
          lookupA (searchCacheGet cache now key).2 key = none) ∧
       (now - e.timestamp ≤ clientCacheDuration →
          searchCacheGet cache now key = (some e.value, cache)) ∧
       (now - e.timestamp < serverCacheDuration →
          geminiCacheGet cache now key = (some e.value, cache)) ∧
       (serverCacheDuration ≤ now - e.timestamp →
          geminiCacheGet cache now key = (none, cache))) := by
  intro α cache key e now hl
  unfold searchCacheGet geminiCacheGet
  rw [hl]
  dsimp only
  refine ⟨fun hgt => ?_, fun hle => ?_, fun hlt => ?_, fun hge => ?_⟩
  · rw [if_pos hgt]
    exact ⟨rfl, lookupA_eraseKey_self cache key⟩
  · rw [if_neg (not_lt.mpr hle)]
  · rw [if_pos hlt]
  · rw [if_neg (not_lt.mpr hge)]

/-- C5 witness: a fresh entry is a hit, unchanged cache, in both caches. -/
theorem cache_ttl_behavior_witness :
    searchCacheGet [("h", (⟨"w", 0⟩ : CacheEntry String))] 1 "h" =
      (some "w", [("h", ⟨"w", 0⟩)]) ∧
    geminiCacheGet [("h", (⟨"w", 0⟩ : CacheEntry String))] 1 "h" =
      (some "w", [("h", ⟨"w", 0⟩)]) := by
  have h := cache_ttl_behavior String [("h", ⟨"w", 0⟩)] "h" ⟨"w", 0⟩ 1 rfl
  exact ⟨h.2.1 (by decide), h.2.2.1 (by decide)⟩

/-- C8 counterexample: a profile was found and the speculative
optimization used the fallback path (its reasoning contains
`unavailable`), yet the orchestrator does NOT re-run the optimizer,
because the profile's gender is empty — refuting "re-run exactly when
the speculative optimization used the fallback path". -/
theorem reoptimize_counterexample :
    shouldReoptimize (some survey0) (createFallbackOptimization "shoes") = false ∧
    includesUnavailable (createFallbackOptimization "shoes").reasoning = true ∧
    finalOptimization (some survey0) (createFallbackOptimization "shoes")
      { optimized_search := "better shoes", reasoning := "personalized" } =
      createFallbackOptimization "shoes" := by
  refine ⟨by decide, by decide, ?_⟩
  unfold finalOptimization
  rw [if_neg]
  intro h
  exact absurd h (by decide)

/-- C8 (amended): when a profile was found AND its gender and budget are
both non-empty, the optimizer is re-run exactly when the speculative
reasoning contains `unavailable`; with no profile, or a profile lacking
gender or budget, or a reasoning without `unavailable`, the speculative
optimization is used unchanged. -/
theorem reoptimize_condition :
    (∀ (s : SurveyData) (opt personalized : OptResult),
        s.gender ≠ "" → s.budget ≠ "" →
        shouldReoptimize (some s) opt = includesUnavailable opt.reasoning ∧
        (includesUnavailable opt.reasoning = false →
          finalOptimization (some s) opt personalized = opt)) ∧
    (∀ (opt personalized : OptResult), finalOptimization none opt personalized = opt) ∧
    (∀ (s : SurveyData) (opt personalized : OptResult),
        s.gender = "" ∨ s.budget = "" →
        finalOptimization (some s) opt personalized = opt) ∧
    (∀ (sd : Option SurveyData) (opt personalized : OptResult),
        shouldReoptimize sd opt = true →
        finalOptimization sd opt personalized = personalized) := by
  refine ⟨?_, ?_, ?_, ?_⟩
  · intro s opt personalized hg hb
    constructor
    · simp [shouldReoptimize, hg, hb]
    · intro hinc
      unfold finalOptimization
      rw [if_neg]
      simp [shouldReoptimize, hg, hb, hinc]
  · intro opt personalized
    unfold finalOptimization
    rw [if_neg]
    simp [shouldReoptimize]
  · intro s opt personalized hor
    unfold finalOptimization
    rw [if_neg]
    rcases hor with hg | hb
    · simp [shouldReoptimize, hg]
    · simp [shouldReoptimize, hb]
  · intro sd opt personalized hre
    unfold finalOptimization
    rw [if_pos hre]

/-- C8 witness: a complete profile and a successful speculative
optimization — no re-run, the speculative result is used unchanged. -/
theorem reoptimize_condition_witness :
    shouldReoptimize (some survey1) { optimized_search := "q", reasoning := "matched catalog wording" } =
      includesUnavailable "matched catalog wording" ∧
    finalOptimization (some survey1) { optimized_search := "q", reasoning := "matched catalog wording" }
      { optimized_search := "p", reasoning := "personal" } =
      { optimized_search := "q", reasoning := "matched catalog wording" } := by
  have h := reoptimize_condition.1 survey1
    { optimized_search := "q", reasoning := "matched catalog wording" }
    { optimized_search := "p", reasoning := "personal" }
    (by decide) (by decide)
  exact ⟨h.1, h.2 (by decide)⟩

/-- C3 counterexample: with 26 raw candidates whose first has price 0,
the handler (cap 25 BEFORE filtering) returns 24 products, while the
claimed "first 25 surviving candidates of the filtering" has 25 — so the
returned list does not equal the first 25 surviving candidates. -/
theorem processCandidates_counterexample :
    (processCandidates c3input).length = 24 ∧
    (specProcessCandidates c3input).length = 25 ∧
    processCandidates c3input ≠ specProcessCandidates c3input := by
  have h24 : (processCandidates c3input).length = 24 := by decide
  have h25 : (specProcessCandidates c3input).length = 25 := by decide
  refine ⟨h24, h25, fun h => ?_⟩
  rw [h, h25] at h24
  exact absurd h24 (by decide)

/-- C3 (amended): the handler takes the FIRST 25 raw candidates, then
normalizes them and drops those with normalized price ≤ 0; hence the
result (and the ranked product list built from it) contains only
products with price > 0 and at most 25 of them, in original order. -/
theorem processCandidates_spec :
    ∀ rs : List RawListing,
      (∀ p ∈ processCandidates rs, jsGtZero p.price = true) ∧
      (processCandidates rs).length ≤ 25 ∧
      processCandidates rs =
        (((withIdx 0 rs).map (fun ip => normalizeListing ip.1 ip.2)).take 25).filter
          (fun p => jsGtZero p.price) ∧
      (∀ (cached : Option (List RankingEntry)) (hasKey : Bool) (f : FetchResult)
          (parseArr : String → Option (List RankingEntry)),
        (∀ rp ∈ rankProductsWithGemini (processCandidates rs) cached hasKey f parseArr,
          jsGtZero rp.product.price = true) ∧
        (rankProductsWithGemini (processCandidates rs) cached hasKey f parseArr).length ≤ 25) := by
  intro rs
  have hmem : ∀ p ∈ processCandidates rs, jsGtZero p.price = true :=
    fun p hp => (List.mem_filter.mp hp).2
  have hque : processCandidates rs =
      (((withIdx 0 rs).map (fun ip => normalizeListing ip.1 ip.2)).take 25).filter
        (fun p => jsGtZero p.price) := by
    unfold processCandidates
    rw [withIdx_take rs 25 0, List.map_take]
  have hlen : (processCandidates rs).length ≤ 25 := by
    rw [hque]
    exact le_trans (List.length_filter_le _ _) (List.length_take_le _ _)
  refine ⟨hmem, hlen, hque, ?_⟩
  intro cached hasKey f parseArr
  constructor
  · intro rp hrp
    have hperm := rankProducts_map_product_perm (processCandidates rs) cached hasKey f parseArr
    have hmap : rp.product ∈
        (rankProductsWithGemini (processCandidates rs) cached hasKey f parseArr).map
          (fun rp => rp.product) := List.mem_map_of_mem _ hrp
    exact hmem _ (hperm.mem_iff.mp hmap)
  · rw [rankProducts_length]
    exact hlen

/-- C3 witness: a single positive-priced listing survives processing with
price > 0 and a list of length at most 25. -/
theorem processCandidates_spec_witness :
    jsGtZero (normalizeListing 0 goodListing).price = true ∧
    (processCandidates [goodListing]).length ≤ 25 := by
  have h := processCandidates_spec [goodListing]
  refine ⟨?_, h.2.1⟩
  apply h.1
  have heval : processCandidates [goodListing] = [normalizeListing 0 goodListing] := rfl
  rw [heval]
  exact List.mem_cons_self _ _

theorem sorted_identityRanking (s : String) :
    ∀ (l : List Product) (k : ℕ),
      List.Sorted rankLE
        ((withIdx k l).map (fun ip : ℕ × Product => ⟨ip.2, (ip.1 : ℤ) + 1, s⟩)) := by
  intro l
  induction l with
  | nil => intro k; simp [withIdx, List.Sorted]
  | cons a as ih =>
      intro k
      simp only [withIdx, List.map_cons]
      rw [List.sorted_cons]
      refine ⟨?_, ih (k + 1)⟩
      intro b hb
      obtain ⟨ip, hip, rfl⟩ := List.mem_map.mp hb
      have hbd := mem_withIdx as (k + 1) ip hip
      show (k : ℤ) + 1 ≤ (ip.1 : ℤ) + 1
      omega

theorem identityRanking_bounds (s : String) (l : List Product) :
    ∀ r ∈ (withIdx 0 l).map
      (fun ip : ℕ × Product => (⟨ip.2, (ip.1 : ℤ) + 1, s⟩ : RankedProduct)),
      0 < r.rank ∧ r.rank ≤ (l.length : ℤ) := by
  intro r hr
  obtain ⟨ip, hip, rfl⟩ := List.mem_map.mp hr
  have hbd := mem_withIdx l 0 ip hip
  show 0 < (ip.1 : ℤ) + 1 ∧ (ip.1 : ℤ) + 1 ≤ (l.length : ℤ)
  omega

theorem applyEntry_rank_cases (rankings : List RankingEntry) (d : String) (i : ℕ) (p : Product) :
    (applyEntry rankings d i p).rank = (i : ℤ) + 1 ∨
    ∃ e ∈ rankings, ∃ k, e.rank = some k ∧ (applyEntry rankings d i p).rank = k := by
  unfold applyEntry
  cases hf : rankings.find? (fun r => r.position == (i : ℤ) + 1) with
  | none => left; rfl
  | some e =>
      have he : e ∈ rankings := List.mem_of_find?_eq_some hf
      cases hr : e.rank with
      | none =>
          left
          show jsIntOr e.rank ((i : ℤ) + 1) = (i : ℤ) + 1
          rw [hr]
          rfl
      | some k =>
          by_cases hk : k = 0
          · left
            show jsIntOr e.rank ((i : ℤ) + 1) = (i : ℤ) + 1
            rw [hr]
            simp [jsIntOr, hk]
          · right
            refine ⟨e, he, k, hr, ?_⟩
            show jsIntOr e.rank ((i : ℤ) + 1) = k
            rw [hr]
            simp [jsIntOr, hk]

theorem applyEntry_map_bounds (rankings : List RankingEntry) (d : String) (l : List Product)
    (hB : ∀ e ∈ rankings, ∀ k, e.rank = some k → 0 < k ∧ k ≤ 2 * (l.length : ℤ)) :
    ∀ x ∈ (withIdx 0 l).map (fun ip : ℕ × Product => applyEntry rankings d ip.1 ip.2),
      0 < x.rank ∧ x.rank ≤ 2 * (l.length : ℤ) := by
  intro x hx
  obtain ⟨ip, hip, rfl⟩ := List.mem_map.mp hx
  have hbd := mem_withIdx l 0 ip hip
  rcases applyEntry_rank_cases rankings d ip.1 ip.2 with hcase | ⟨e, he, k, hek, hcase⟩
  · rw [hcase]; omega
  · rw [hcase]
    have := hB e he k hek
    omega

/-- C1 counterexample: on the cache-hit path the ranker replays cached
ranks positionally WITHOUT sorting, so the returned product list is not
sorted ascending by rank — refuting "this holds on every path of the
ranker (external call success, cache hit, and fallback)". -/
theorem ranker_cacheHit_unsorted_counterexample :
    ¬ List.Sorted rankLE
      (rankProductsWithGemini [prodA, prodB] (some cexRankings) true .netError
        (fun _ => none)) := by
  intro h
  have heq : rankProductsWithGemini [prodA, prodB] (some cexRankings) true .netError
      (fun _ => none) = [⟨prodA, 2, "x"⟩, ⟨prodB, 1, "y"⟩] := rfl
  rw [heq] at h
  have hrel := List.rel_of_sorted_cons h _ (List.mem_cons_self _ _)
  exact absurd hrel (by decide)

/-- C1 (amended): on the two fallback paths (missing credential, failed
call) the returned list is sorted ascending by rank with every rank
positive and at most the input size; on the successful-call path the
list is always sorted ascending by rank, and ranks are positive and at
most twice the input size provided every rank in the external response
is; on the cache-hit path the list is not sorted (see the
counterexample). -/
theorem ranker_sorted_bounds :
    ∀ (products : List Product) (f : FetchResult)
      (parseArr : String → Option (List RankingEntry)),
      (List.Sorted rankLE (rankProductsWithGemini products none false f parseArr) ∧
        ∀ r ∈ rankProductsWithGemini products none false f parseArr,
          0 < r.rank ∧ r.rank ≤ (products.length : ℤ)) ∧
      (rankAttempt f parseArr = none →
        List.Sorted rankLE (rankProductsWithGemini products none true f parseArr) ∧
        ∀ r ∈ rankProductsWithGemini products none true f parseArr,
          0 < r.rank ∧ r.rank ≤ (products.length : ℤ)) ∧
      (∀ rankings, rankAttempt f parseArr = some rankings →
        List.Sorted rankLE (rankProductsWithGemini products none true f parseArr) ∧
        ((∀ e ∈ rankings, ∀ k, e.rank = some k → 0 < k ∧ k ≤ 2 * (products.length : ℤ)) →
          ∀ r ∈ rankProductsWithGemini products none true f parseArr,
            0 < r.rank ∧ r.rank ≤ 2 * (products.length : ℤ))) := by
  intro products f parseArr
  refine ⟨?_, ?_, ?_⟩
  · rw [rankProducts_noKey]
    exact ⟨sorted_identityRanking "Default ranking (AI unavailable)" products 0,
      identityRanking_bounds "Default ranking (AI unavailable)" products⟩
  · intro hra
    rw [rankProducts_error products f parseArr hra]
    exact ⟨sorted_identityRanking "Default ranking (error)" products 0,
      identityRanking_bounds "Default ranking (error)" products⟩
  · intro rankings hra
    rw [rankProducts_success products f parseArr rankings hra]
    constructor
    · exact List.sorted_insertionSort rankLE _
    · intro hB r hr
      have hperm := List.perm_insertionSort rankLE
        ((withIdx 0 products).map
          (fun ip : ℕ × Product => applyEntry rankings "AI ranked" ip.1 ip.2))
      exact applyEntry_map_bounds rankings "AI ranked" products hB r (hperm.mem_iff.mp hr)

/-- C1 witness: the missing-credential fallback on one product is sorted
with rank 1, the failed call likewise, and a concrete successful call
with a well-bounded response yields a sorted list with positive ranks. -/
theorem ranker_sorted_bounds_witness :
    List.Sorted rankLE
      (rankProductsWithGemini [prodA] none false .netError (fun _ => none)) ∧
    List.Sorted rankLE
      (rankProductsWithGemini [prodA] none true .netError (fun _ => none)) ∧
    (0 : ℤ) <
      (RankedProduct.mk prodA 1 "Default ranking (AI unavailable)").rank := by
  have h := ranker_sorted_bounds [prodA] .netError (fun _ => none)
  refine ⟨h.1.1, (h.2.1 rfl).1, ?_⟩
  have hm : (⟨prodA, 1, "Default ranking (AI unavailable)"⟩ : RankedProduct) ∈
      rankProductsWithGemini [prodA] none false .netError (fun _ => none) := by
    have heval : rankProductsWithGemini [prodA] none false .netError (fun _ => none) =
        [⟨prodA, 1, "Default ranking (AI unavailable)"⟩] := rfl
    rw [heval]
    exact List.mem_cons_self _ _
  exact (h.1.2 _ hm).1

/-- C6: skipped call (missing credential) and failed call return the
products in original order with `rank = original 1-based position` and
the documented reasoning strings; on a successful call, a product with
no matching ranking entry gets `rank = its original 1-based position`
and `reasoning = "AI ranked"`. -/
theorem ranker_fallback_defaults :
    ∀ (products : List Product) (f : FetchResult)
      (parseArr : String → Option (List RankingEntry)),
      (∀ i, (h : i < products.length) →
        (rankProductsWithGemini products none false f parseArr)[i]? =
          some ⟨products[i], (i : ℤ) + 1, "Default ranking (AI unavailable)"⟩) ∧
      (rankAttempt f parseArr = none →
        ∀ i, (h : i < products.length) →
          (rankProductsWithGemini products none true f parseArr)[i]? =
            some ⟨products[i], (i : ℤ) + 1, "Default ranking (error)"⟩) ∧
      (∀ rankings, rankAttempt f parseArr = some rankings →
        ∀ i, (h : i < products.length) →
          rankings.find? (fun r => r.position == (i : ℤ) + 1) = none →
          (⟨products[i], (i : ℤ) + 1, "AI ranked"⟩ : RankedProduct) ∈
            rankProductsWithGemini products none true f parseArr) := by
  intro products f parseArr
  refine ⟨?_, ?_, ?_⟩
  · intro i h
    rw [rankProducts_noKey, withIdx_map_getElem, List.getElem?_eq_getElem h]
    simp
  · intro hra i h
    rw [rankProducts_error products f parseArr hra, withIdx_map_getElem,
      List.getElem?_eq_getElem h]
    simp
  · intro rankings hra i h hfind
    rw [rankProducts_success products f parseArr rankings hra]
    have hperm := List.perm_insertionSort rankLE
      ((withIdx 0 products).map
        (fun ip : ℕ × Product => applyEntry rankings "AI ranked" ip.1 ip.2))
    apply hperm.mem_iff.mpr
    have hg := withIdx_map_getElem
      (fun ip : ℕ × Product => applyEntry rankings "AI ranked" ip.1 ip.2) products 0 i
    rw [List.getElem?_eq_getElem h] at hg
    have hmem := List.getElem?_mem hg
    dsimp only at hmem
    simp only [Nat.zero_add] at hmem
    have heq : applyEntry rankings "AI ranked" i products[i] =
        ⟨products[i], (i : ℤ) + 1, "AI ranked"⟩ := by
      unfold applyEntry
      rw [hfind]
    rw [heq] at hmem
    exact hmem

/-- C6 witness: two products, no credential — the second entry is the
second product with rank 2; and on a successful call whose response
lacks an entry for position 1, the product defaults to rank 1 with
reasoning `AI ranked`. -/
theorem ranker_fallback_defaults_witness :
    (rankProductsWithGemini [prodA, prodB] none false .netError (fun _ => none))[1]? =
      some ⟨prodB, 2, "Default ranking (AI unavailable)"⟩ ∧
    (⟨prodA, 1, "AI ranked"⟩ : RankedProduct) ∈
      rankProductsWithGemini [prodA] none true (.response true (some (some "[]")))
        (fun _ => some []) := by
  have h := ranker_fallback_defaults [prodA, prodB] .netError (fun _ => none)
  have h2 := ranker_fallback_defaults [prodA] (.response true (some (some "[]")))
    (fun _ => some [])
  exact ⟨h.1 1 (by decide), h2.2.2 [] rfl 0 (by decide) rfl⟩

/-- C10: on every path of the ranker (cache hit, missing credential,
success, failure) the output has exactly the length of the input and the
multiset of carried products is exactly the input products — each output
element holds its input product unchanged in all fields, with only
`rank` and `reasoning` added; nothing is dropped, duplicated or
invented. -/
theorem ranker_preserves_products :
    ∀ (products : List Product) (cached : Option (List RankingEntry)) (hasKey : Bool)
      (f : FetchResult) (parseArr : String → Option (List RankingEntry)),
      (rankProductsWithGemini products cached hasKey f parseArr).length = products.length ∧
      ((rankProductsWithGemini products cached hasKey f parseArr).map
        (fun rp => rp.product)).Perm products :=
  fun products cached hasKey f parseArr =>
    ⟨rankProducts_length products cached hasKey f parseArr,
     rankProducts_map_product_perm products cached hasKey f parseArr⟩

/-- C7: for an update that changes the (cleaned) username, over any
coherent store: if the new username is already bound in the reverse
index it is bound to a DIFFERENT user, the request gets 409 and the
store is untouched; if it is unbound, the old mapping is removed, the
new one is inserted, the user record is updated, and coherence of the
reverse index (no username maps to two users; the stored username has a
matching index entry) is preserved. -/
theorem putUser_username_unique :
    ∀ (st : Store) (userId name username : String) (currentUser : UserProfile),
      WFStore st →
      trimStr name ≠ "" → trimStr username ≠ "" →
      lookupA st.users userId = some currentUser →
      cleanOf username ≠ currentUser.username →
      ((∀ otherId, lookupA st.usernames (cleanOf username) = some otherId →
          otherId ≠ userId ∧ putUser st userId name username = (.conflict, st)) ∧
       (lookupA st.usernames (cleanOf username) = none →
          (putUser st userId name username).1 =
            .ok { currentUser with name := trimStr name, username := cleanOf username } ∧
          lookupA (putUser st userId name username).2.usernames (cleanOf username) =
            some userId ∧
          lookupA (putUser st userId name username).2.usernames currentUser.username =
            none ∧
          lookupA (putUser st userId name username).2.users userId =
            some { currentUser with name := trimStr name, username := cleanOf username } ∧
          WFStore (putUser st userId name username).2)) := by
  intro st userId name username currentUser hwf hname huser hu hne
  have hval : ¬(trimStr name = "" ∨ trimStr username = "") := by
    intro hor
    rcases hor with h | h
    · exact hname h
    · exact huser h
  constructor
  · intro otherId hother
    constructor
    · intro hoid
      subst hoid
      obtain ⟨u, hu', huname⟩ := hwf (cleanOf username) otherId hother
      rw [hu] at hu'
      have : u = currentUser := Option.some.inj hu'.symm
      subst this
      exact hne huname.symm
    · unfold putUser
      rw [if_neg hval, hu]
      dsimp only
      rw [if_pos hne, hother]
  · intro hnone
    have hput : putUser st userId name username =
        (.ok { currentUser with name := trimStr name, username := cleanOf username },
         ⟨setKey st.users userId
            { currentUser with name := trimStr name, username := cleanOf username },
          setKey (eraseKey st.usernames currentUser.username) (cleanOf username) userId⟩) := by
      unfold putUser
      rw [if_neg hval, hu]
      dsimp only
      rw [if_pos hne, hnone]
    rw [hput]
    refine ⟨rfl, ?_, ?_, ?_, ?_⟩
    · exact lookupA_setKey_self _ _ _
    · rw [lookupA_setKey_ne _ _ _ _ (Ne.symm hne)]
      exact lookupA_eraseKey_self _ _
    · exact lookupA_setKey_self _ _ _
    · intro k uid hk
      by_cases hkc : k = cleanOf username
      · subst hkc
        rw [lookupA_setKey_self] at hk
        have huid : userId = uid := Option.some.inj hk
        subst huid
        exact ⟨_, lookupA_setKey_self _ _ _, rfl⟩
      · rw [lookupA_setKey_ne _ _ _ _ hkc] at hk
        by_cases hkcur : k = currentUser.username
        · subst hkcur
          rw [lookupA_eraseKey_self] at hk
          exact absurd hk (by simp)
        · rw [lookupA_eraseKey_ne _ _ _ hkcur] at hk
          obtain ⟨u, hu', huname⟩ := hwf k uid hk
          have huid : uid ≠ userId := by
            intro hq
            subst hq
            rw [hu] at hu'
            have : u = currentUser := Option.some.inj hu'.symm
            subst this
            exact hkcur huname.symm
          refine ⟨u, ?_, huname⟩
          rw [lookupA_setKey_ne _ _ _ _ huid]
          exact hu'

/-- C7 witness: in a two-user store, renaming `alice` to `carol`
succeeds, rebinding the index; renaming to `bob` is a 409 that leaves
the store unchanged. -/
theorem putUser_username_unique_witness :
    (putUser store7 "u1" "Alice" "carol").1 =
      .ok ⟨"u1", "Alice", "carol", "t0"⟩ ∧
    lookupA (putUser store7 "u1" "Alice" "carol").2.usernames "carol" = some "u1" ∧
    lookupA (putUser store7 "u1" "Alice" "carol").2.usernames "alice" = none ∧
    putUser store7 "u1" "Alice" "bob" = (.conflict, store7) := by
  have hwf : WFStore store7 := by
    intro k uid hk
    have hk' : (if "alice" = k then some "u1"
        else if "bob" = k then some "u2" else none) = some uid := hk
    by_cases h1 : ("alice" : String) = k
    · subst h1
      rw [if_pos rfl] at hk'
      have : "u1" = uid := Option.some.inj hk'
      subst this
      exact ⟨⟨"u1", "Alice", "alice", "t0"⟩, by decide, by decide⟩
    · rw [if_neg h1] at hk'
      by_cases h2 : ("bob" : String) = k
      · subst h2
        rw [if_pos rfl] at hk'
        have : "u2" = uid := Option.some.inj hk'
        subst this
        exact ⟨⟨"u2", "Bob", "bob", "t1"⟩, by decide, by decide⟩
      · rw [if_neg h2] at hk'
        exact absurd hk' (by simp)
  have hcarol := putUser_username_unique store7 "u1" "Alice" "carol"
    ⟨"u1", "Alice", "alice", "t0"⟩ hwf (by decide) (by decide) (by decide) (by decide)
  have hbob := putUser_username_unique store7 "u1" "Alice" "bob"
    ⟨"u1", "Alice", "alice", "t0"⟩ hwf (by decide) (by decide) (by decide) (by decide)
  have hsucc := hcarol.2 (by decide)
  refine ⟨hsucc.1, hsucc.2.1, hsucc.2.2.1, (hbob.1 "u2" (by decide)).2⟩

theorem dedupKeepFirst_nodup : ∀ l : List String, (dedupKeepFirst l).Nodup := by
  intro l
  induction l with
  | nil => exact List.nodup_nil
  | cons q qs ih =>
      unfold dedupKeepFirst
      rw [List.nodup_cons]
      refine ⟨?_, ih.filter _⟩
      intro hq
      have := (List.mem_filter.mp hq).2
      simp at this

theorem histTakeFilter (r : String) :
    ∀ (L : List String) (n : ℕ), L.Nodup →
      ((L.take (n + 1)).filter (fun x => x ≠ r)).take n =
        ((L.filter (fun x => x ≠ r)).take n) := by
  intro L
  induction L with
  | nil => intro n _; simp
  | cons a L' ih =>
      intro n hnd
      have hnd' : L'.Nodup := hnd.of_cons
      by_cases har : a = r
      · subst har
        have hnotmem : a ∉ L' := (List.nodup_cons.mp hnd).1
        have hfL' : L'.filter (fun x => x ≠ a) = L' := by
          apply List.filter_eq_self.mpr
          intro x hx
          simp only [decide_eq_true_eq]
          intro hxa
          exact hnotmem (hxa ▸ hx)
        have hfTake : (L'.take n).filter (fun x => x ≠ a) = L'.take n := by
          apply List.filter_eq_self.mpr
          intro x hx
          simp only [decide_eq_true_eq]
          intro hxa
          exact hnotmem (hxa ▸ List.mem_of_mem_take hx)
        rw [List.take_succ_cons]
        rw [List.filter_cons, List.filter_cons]
        have hdec : decide (a ≠ a) = false := by simp
        rw [hdec]
        simp only [Bool.false_eq_true, if_false]
        rw [hfL', hfTake, List.take_take, min_self]
      · cases n with
        | zero => simp
        | succ m =>
            rw [List.take_succ_cons]
            rw [List.filter_cons, List.filter_cons]
            have hdec : decide (a ≠ r) = true := by
              simp only [decide_eq_true_eq]
              exact har
            simp only [hdec, if_true]
            rw [List.take_succ_cons, List.take_succ_cons]
            congr 1
            exact ih m hnd'


/-- Characterization of the folded search history: the most-recent-first
de-duplication of the search sequence, capped at 6. -/
theorem searchHistory_fold :
    ∀ qs : List String,
      qs.foldl addToHistory [] = (dedupKeepFirst qs.reverse).take 6 := by
  suffices h : ∀ rs : List String,
      rs.reverse.foldl addToHistory [] = (dedupKeepFirst rs).take 6 by
    intro qs
    have hq := h qs.reverse
    rwa [List.reverse_reverse] at hq
  intro rs
  induction rs with
  | nil => rfl
  | cons r rs' ih =>
      rw [List.reverse_cons, List.foldl_append]
      simp only [List.foldl_cons, List.foldl_nil]
      rw [ih]
      show ((r :: ((dedupKeepFirst rs').take 6).filter (fun x => x ≠ r)).take 6) =
        ((r :: (dedupKeepFirst rs').filter (fun x => x ≠ r)).take 6)
      rw [List.take_succ_cons, List.take_succ_cons]
      congr 1
      exact histTakeFilter r (dedupKeepFirst rs') 5 (dedupKeepFirst_nodup rs')

/-- C9: the per-category search history after any sequence of completed
searches has length at most 6, no duplicate queries, and equals the
most-recent-first de-duplication of the searches capped at 6; searching
a query already in the history moves it to the front without adding a
second copy (the length is unchanged). -/
theorem searchHistory_invariant :
    (∀ qs : List String,
      (qs.foldl addToHistory []).length ≤ 6 ∧
      (qs.foldl addToHistory []).Nodup ∧
      qs.foldl addToHistory [] = (dedupKeepFirst qs.reverse).take 6) ∧
    (∀ (hist : List String) (q : String), hist.Nodup → hist.length ≤ 6 → q ∈ hist →
      addToHistory hist q = q :: hist.erase q ∧
      (addToHistory hist q).length = hist.length) := by
  constructor
  · intro qs
    have hc := searchHistory_fold qs
    refine ⟨?_, ?_, hc⟩
    · rw [hc]
      exact List.length_take_le _ _
    · rw [hc]
      exact (dedupKeepFirst_nodup _).sublist (List.take_sublist _ _)
  · intro hist q hnd hlen hmem
    have herase : hist.erase q = hist.filter (fun x => x != q) := hnd.erase_eq_filter q
    have hfilter_eq : hist.filter (fun x => x != q) = hist.filter (fun x => x ≠ q) := by
      apply List.filter_congr
      intro x _
      by_cases h : x = q <;> simp [h]
    have hlenf : (hist.filter (fun x => x ≠ q)).length = hist.length - 1 := by
      rw [← hfilter_eq, ← herase]
      exact List.length_erase_of_mem hmem
    have hpos : 0 < hist.length := List.length_pos.mpr (List.ne_nil_of_mem hmem)
    have hle : (q :: hist.filter (fun x => x ≠ q)).length ≤ 6 := by
      simp only [List.length_cons, hlenf]
      omega
    unfold addToHistory
    rw [List.take_of_length_le hle]
    refine ⟨?_, ?_⟩
    · rw [herase, hfilter_eq]
    · simp only [List.length_cons, hlenf]
      omega

/-- C9 witness: searching `a`, `b`, then `a` again yields `[a, b]`, and
re-searching a present query moves it to the front without growing the
history. -/
theorem searchHistory_invariant_witness :
    ["a", "b", "a"].foldl addToHistory [] = ["a", "b"] ∧
    addToHistory ["b", "a"] "a" = ["a", "b"] ∧
    (addToHistory ["b", "a"] "a").length = 2 := by
  have h1 := searchHistory_invariant.1 ["a", "b", "a"]
  have h2 := searchHistory_invariant.2 ["b", "a"] "a" (by decide) (by decide) (by decide)
  refine ⟨?_, ?_, ?_⟩
  · rw [h1.2.2]
    decide
  · rw [h2.1]
    decide
  · rw [h2.2]
    rfl
